import Mathlib

/-!
Verification development for the stock-forecast module of the
tradeDumpSupabase repository (`stock_forecast/stock_price_forecast.py`,
`stock_forecast/store_forecasts_to_supabase_v2.py`,
`stock_forecast/store_forecasts_to_supabase.py`).

The Python code is embedded shallowly: pandas DataFrames of price bars
become `List PriceBar`, close prices are exact rationals (the claims are
about the arithmetic the code performs, up to floating-point tolerance),
timestamps are rationals measured in days (the fractional part is the
time of day), and the one place where IEEE special values matter — the
percentage change when the last close is zero — is modelled by the
`FVal` type that carries `inf`, `neginf` and `nan` alongside finite
values, mirroring numpy division semantics on exact inputs.

The external statistical libraries (statsmodels ARIMA, Prophet) are not
part of the repository; their fitted predictions enter the embedded
strategy functions as an oracle argument, while everything the Python
functions themselves do around the fit (guards, frame construction,
timestamps, derived columns) is translated from the source.
-/

/-- A float-like value: either an exact finite rational or one of the
IEEE special values that numpy produces on division by zero. -/
inductive FVal where
  | fin (q : ℚ)
  | inf
  | neginf
  | nan
deriving DecidableEq, Repr

/-- True exactly on finite values. -/
def FVal.isFinite : FVal → Bool
  | .fin _ => true
  | _ => false

/-- The value of `(change / last) * 100` under numpy float semantics on
exact inputs: ordinary rational arithmetic when `last ≠ 0`, and the IEEE
special values (`±inf`, or `nan` for `0/0`) when `last = 0`.  Multiplying
a special value by 100 leaves it unchanged, as in IEEE arithmetic. -/
def pctChange (change last : ℚ) : FVal :=
  if last ≠ 0 then .fin (change / last * 100)
  else if 0 < change then .inf
  else if change < 0 then .neginf
  else .nan

/-- One OHLCV observation of a security, one row of the `stock_prices`
table / of the pandas DataFrame the forecast functions receive.
`ts` is the timestamp in days (fractional part = time of day). -/
structure PriceBar where
  ts : ℚ
  symbol : String
  «open» : ℚ
  high : ℚ
  low : ℚ
  close : ℚ
  volume : ℚ
deriving DecidableEq, Repr

/-- One row of the forecast DataFrame built by the strategy functions.
`lower_bound`/`upper_bound` are `none` when the corresponding DataFrame
column is absent (linear and moving-average forecasts). -/
structure ForecastPoint where
  ts : ℚ
  symbol : String
  predicted_close : ℚ
  forecast_day : ℕ
  price_change : ℚ
  price_change_pct : FVal
  lower_bound : Option ℚ := none
  upper_bound : Option ℚ := none
deriving DecidableEq, Repr

/-- Embeds `df.sort_values("timestamp")`: sort bars ascending by timestamp. -/
def tsLE (a b : PriceBar) : Prop := a.ts ≤ b.ts

instance : DecidableRel tsLE := fun a b => inferInstanceAs (Decidable (a.ts ≤ b.ts))

instance : IsTotal PriceBar tsLE := ⟨fun a b => le_total a.ts b.ts⟩

instance : IsTrans PriceBar tsLE := ⟨fun _ _ _ h h2 => le_trans h h2⟩

def sortByTs (l : List PriceBar) : List PriceBar := List.insertionSort tsLE l

/-- The close of the final (latest-timestamp) bar of a series
(`prices[-1]` after `sort_values("timestamp")`); 0 for an empty series. -/
def lastClose (df : List PriceBar) : ℚ := ((sortByTs df).map (·.close)).getLastD 0

/-- The last known timestamp of a series (`df["timestamp"].iloc[-1]`
after sorting); 0 for an empty series. -/
def lastTs (df : List PriceBar) : ℚ := ((sortByTs df).map (·.ts)).getLastD 0

/-- Arithmetic mean of a list of rationals (`np.mean`). -/
def listMean (l : List ℚ) : ℚ := l.sum / l.length

/-- Slope of the ordinary least-squares fit of `ys` against the
zero-based index `0, 1, …, n-1` (what `sklearn.LinearRegression` computes
on feature matrix `arange(n)`). -/
def olsSlope (ys : List ℚ) : ℚ :=
  let xs := (List.range ys.length).map (fun (i : ℕ) => (i : ℚ))
  let xbar := listMean xs
  let ybar := listMean ys
  let sxy := ((xs.zip ys).map (fun p => (p.1 - xbar) * (p.2 - ybar))).sum
  let sxx := (xs.map (fun x => (x - xbar) ^ 2)).sum
  sxy / sxx

/-- Intercept of the same least-squares fit. -/
def olsIntercept (ys : List ℚ) : ℚ :=
  listMean ys - olsSlope ys * listMean ((List.range ys.length).map (fun (i : ℕ) => (i : ℚ)))

/-- The fitted line evaluated at index `x` (`model.predict`). -/
def olsPredict (ys : List ℚ) (x : ℚ) : ℚ := olsIntercept ys + olsSlope ys * x

/-- Embeds `forecast_linear_regression(df, symbol, days)`: OLS fit of close
price against the day index over the whole series, evaluated at the next
`days` indices.  Empty result when the series has fewer than 5 bars. -/
def forecast_linear_regression (df : List PriceBar) (symbol : String) (days : ℕ) :
    List ForecastPoint :=
  if df.length < 5 then []
  else
    let dfs := sortByTs df
    let prices := dfs.map (·.close)
    let last_date := (dfs.map (·.ts)).getLastD 0
    let last_price := prices.getLastD 0
    (List.range days).map (fun (i : ℕ) =>
      let predicted := olsPredict prices ((prices.length : ℚ) + (i : ℚ))
      { ts := last_date + ((i : ℚ) + 1)
        symbol := symbol
        predicted_close := predicted
        forecast_day := i + 1
        price_change := predicted - last_price
        price_change_pct := pctChange (predicted - last_price) last_price })

/-- Embeds `pd.Series(xs).ewm(span=span, adjust=False).mean()`: exponentially
weighted moving average, `y₀ = x₀`, `yₜ = (1-α)·yₜ₋₁ + α·xₜ` with
`α = 2/(span+1)`.  Computed by `forecast_moving_average` but not used in
any predicted value. -/
def ewmMean (span : ℕ) (xs : List ℚ) : List ℚ :=
  let α : ℚ := 2 / (span + 1)
  match xs with
  | [] => []
  | x :: rest =>
    (rest.foldl (fun (acc : List ℚ × ℚ) x' =>
      let y := (1 - α) * acc.2 + α * x'
      (acc.1 ++ [y], y)) ([x], x)).1

/-- Embeds `forecast_moving_average(df, symbol, days)`: computes an EWMA
baseline (span `min 20 n`, unused) and extrapolates the last close by the
trend `(recent.last - recent.head) / len(recent)` over the last
`min 10 n` closes.  Empty result when the series has fewer than 5 bars. -/
def forecast_moving_average (df : List PriceBar) (symbol : String) (days : ℕ) :
    List ForecastPoint :=
  if df.length < 5 then []
  else
    let dfs := sortByTs df
    let prices := dfs.map (·.close)
    let _ewma := ewmMean (min 20 prices.length) prices
    let recent_prices := prices.drop (prices.length - min 10 prices.length)
    let trend := (recent_prices.getLastD 0 - recent_prices.headD 0) / recent_prices.length
    let last_date := (dfs.map (·.ts)).getLastD 0
    let last_price := prices.getLastD 0
    (List.range days).map (fun (i : ℕ) =>
      let predicted := last_price + trend * ((i : ℚ) + 1)
      { ts := last_date + ((i : ℚ) + 1)
        symbol := symbol
        predicted_close := predicted
        forecast_day := i + 1
        price_change := predicted - last_price
        price_change_pct := pctChange (predicted - last_price) last_price })

/-- Embeds `forecast_arima(df, symbol, days)`.  The statsmodels ARIMA(1,1,1)
fit is external to the repository: `oracle prices days` stands for
`fitted_model.get_forecast(steps=days)` and returns the predicted means
with their 95% confidence bounds, or `none` when the fit raises (the
`except` branch, which the function converts to an empty frame).  A
result whose length differs from `days` could not populate the frame's
equal-length columns and likewise ends in the `except` branch.
Everything else — availability and minimum-length guards, sorting, the
timestamps and derived columns — is translated from the source. -/
def forecast_arima (arimaAvailable : Bool)
    (oracle : List ℚ → ℕ → Option (List (ℚ × ℚ × ℚ)))
    (df : List PriceBar) (symbol : String) (days : ℕ) : List ForecastPoint :=
  if !arimaAvailable then []
  else if df.length < 15 then []
  else
    let dfs := sortByTs df
    let prices := dfs.map (·.close)
    match oracle prices days with
    | none => []
    | some preds =>
      if preds.length = days then
        let last_date := (dfs.map (·.ts)).getLastD 0
        let last_price := prices.getLastD 0
        (List.range days).map (fun (i : ℕ) =>
          let p := preds.getD i (0, 0, 0)
          { ts := last_date + ((i : ℚ) + 1)
            symbol := symbol
            predicted_close := p.1
            forecast_day := i + 1
            price_change := p.1 - last_price
            price_change_pct := pctChange (p.1 - last_price) last_price
            lower_bound := some p.2.1
            upper_bound := some p.2.2 })
      else []

/-- Embeds `forecast_prophet(df, symbol, days)`.  The Prophet fit is external:
`oracle ys days` stands for `model.predict(future).tail(days)` on the
sorted close series and yields `(yhat, yhat_lower, yhat_upper)` per
future day, or `none` when fitting raises.  `make_future_dataframe`
with daily frequency puts the future rows at the last known timestamp
plus 1, 2, … days, which is translated directly; guards, sorting and
derived columns follow the source. -/
def forecast_prophet (prophetAvailable : Bool)
    (oracle : List ℚ → ℕ → Option (List (ℚ × ℚ × ℚ)))
    (df : List PriceBar) (symbol : String) (days : ℕ) : List ForecastPoint :=
  if !prophetAvailable then []
  else if df.length < 10 then []
  else
    let dfs := sortByTs df
    let ys := dfs.map (·.close)
    match oracle ys days with
    | none => []
    | some preds =>
      if preds.length = days then
        let last_date := (dfs.map (·.ts)).getLastD 0
        let last_price := ys.getLastD 0
        (List.range days).map (fun (i : ℕ) =>
          let p := preds.getD i (0, 0, 0)
          { ts := last_date + ((i : ℚ) + 1)
            symbol := symbol
            predicted_close := p.1
            forecast_day := i + 1
            price_change := p.1 - last_price
            price_change_pct := pctChange (p.1 - last_price) last_price
            lower_bound := some p.2.1
            upper_bound := some p.2.2 })
      else []

/-- Embeds `fetch_historical_data(symbol, days)`.  The Supabase select is
external: `response = none` models the `except` branch (network or query
failure), `some bars` the rows returned for the symbol.  The function
sorts ascending by timestamp and keeps the last `days` bars
(`df.sort_values("timestamp").tail(days)`); no data or failure yields an
empty frame. -/
def fetch_historical_data (response : Option (List PriceBar)) (days : ℕ) : List PriceBar :=
  match response with
  | none => []
  | some [] => []
  | some bars =>
    let dfs := sortByTs bars
    dfs.drop (dfs.length - days)

/-- Embeds `generate_forecast(symbol, days, method)`: fetch the last 90 bars,
dispatch on the method string, return an empty frame for an unknown
method or when no data is available. -/
def generate_forecast (response : Option (List PriceBar)) (symbol : String)
    (days : ℕ) (method : String) (arimaAvailable prophetAvailable : Bool)
    (arimaOracle prophetOracle : List ℚ → ℕ → Option (List (ℚ × ℚ × ℚ))) :
    List ForecastPoint :=
  let df := fetch_historical_data response 90
  if df.isEmpty then []
  else if method = "linear" then forecast_linear_regression df symbol days
  else if method = "moving_average" then forecast_moving_average df symbol days
  else if method = "arima" then forecast_arima arimaAvailable arimaOracle df symbol days
  else if method = "prophet" then forecast_prophet prophetAvailable prophetOracle df symbol days
  else []

/-- One row of the `forecast_stocks` table.  `forecast_date` is a
calendar date as a day number; nullable columns are `Option`.  A column
the insert payload omits is `none` (SQL NULL). -/
structure ForecastRow where
  forecast_date : ℤ
  symbol : String
  method : String
  predicted_close : ℚ
  price_change : Option ℚ
  price_change_pct : Option FVal
  forecast_day : Option ℕ
  lower_bound : Option ℚ
  upper_bound : Option ℚ
deriving DecidableEq, Repr

/-- The key the `UNIQUE(forecast_date, symbol, method)` constraint of
`forecast_stocks` is on. -/
def rowKey (r : ForecastRow) : ℤ × String × String := (r.forecast_date, r.symbol, r.method)

/-- Record construction of `store_forecasts_to_supabase_v2.insert_forecast_data`:
`forecast_date` is the calendar date of the point's timestamp
(`pd.to_datetime(row["timestamp"]).date()`), the symbol is stripped, and
`pd.notna` turns a NaN percentage into NULL.  The payload carries no
`lower_bound`/`upper_bound` keys, so those columns are NULL. -/
def rowOfPointV2 (method : String) (p : ForecastPoint) : ForecastRow :=
  { forecast_date := ⌊p.ts⌋
    symbol := p.symbol.trim
    method := method
    predicted_close := p.predicted_close
    price_change := some p.price_change
    price_change_pct := if p.price_change_pct = .nan then none else some p.price_change_pct
    forecast_day := some p.forecast_day
    lower_bound := none
    upper_bound := none }

/-- Record construction of `store_forecasts_to_supabase.insert_forecast_data`
(the v1 sink): every row is stamped with the run date `today`, not the
point's own timestamp, and the bound columns are populated exactly when
the forecast frame has them. -/
def rowOfPointV1 (today : ℤ) (method : String) (p : ForecastPoint) : ForecastRow :=
  { forecast_date := today
    symbol := p.symbol
    method := method
    predicted_close := p.predicted_close
    price_change := some p.price_change
    price_change_pct := some p.price_change_pct
    forecast_day := some p.forecast_day
    lower_bound := p.lower_bound
    upper_bound := p.upper_bound }

/-- Model of the external table store's `insert(batch)` under the
`UNIQUE(forecast_date, symbol, method)` constraint declared in
`setup_forecast_table.py`: the statement succeeds and appends the whole
batch when no key collides with the stored rows or within the batch, and
raises a duplicate-key error inserting nothing otherwise (`none`). -/
def tableInsert (state : List ForecastRow) (batch : List ForecastRow) :
    Option (List ForecastRow) :=
  if (batch.map rowKey).Nodup ∧ ∀ r ∈ batch, rowKey r ∉ state.map rowKey
  then some (state ++ batch)
  else none

/-- Batch slicing as in `range(0, len(records), batch_size)`: split a list into
consecutive batches (each nonempty). -/
def listChunks (bs : ℕ) : List α → List (List α)
  | [] => []
  | a :: rest => (a :: rest.take (bs - 1)) :: listChunks bs (rest.drop (bs - 1))
termination_by l => l.length
decreasing_by simp [List.length_drop]; omega

/-- One iteration of the batch loop of `insert_forecast_data` (v2): the
batch is sent to the store; a duplicate-key error is swallowed and the
batch is still counted in `total_inserted`. -/
def insertStep (acc : List ForecastRow × ℕ) (batch : List ForecastRow) :
    List ForecastRow × ℕ :=
  match tableInsert acc.1 batch with
  | some s => (s, acc.2 + batch.length)
  | none => (acc.1, acc.2 + batch.length)

/-- The batch loop of `insert_forecast_data` (v2): returns the new table
state and the count of rows reported as accepted. -/
def insertBatches (state : List ForecastRow) (batches : List (List ForecastRow)) :
    List ForecastRow × ℕ :=
  batches.foldl insertStep (state, 0)

/-- Embeds `insert_forecast_data(forecast_df, method, batch_size)` of
`store_forecasts_to_supabase_v2.py`, acting on the modelled table state:
normalize each point to a row, insert in batches, swallow duplicate-key
conflicts while counting the batch.  An empty frame inserts nothing and
returns 0. -/
def insert_forecast_data (state : List ForecastRow) (points : List ForecastPoint)
    (method : String) (batch_size : ℕ) : List ForecastRow × ℕ :=
  if points.isEmpty then (state, 0)
  else insertBatches state (listChunks batch_size (points.map (rowOfPointV2 method)))

theorem pctChange_ne (c x : ℚ) (hx : x ≠ 0) : pctChange c x = .fin (c / x * 100) := by
  simp [pctChange, hx]

/-- The result shape asserted for every strategy: empty, or exactly `h`
points whose `forecast_day` values are `1..h` in order and whose
timestamps are the last known timestamp plus `1..h` whole days. -/
def shapeOK (res : List ForecastPoint) (lastT : ℚ) (h : ℕ) : Prop :=
  res = [] ∨
    (res.length = h ∧
     res.map (·.forecast_day) = (List.range h).map (fun i => i + 1) ∧
     res.map (·.ts) = (List.range h).map (fun (i : ℕ) => lastT + ((i : ℚ) + 1)))

theorem shapeOK_of_builder (lastT : ℚ) (h : ℕ) (f : ℕ → ForecastPoint)
    (hd : ∀ i, (f i).forecast_day = i + 1)
    (ht : ∀ i, (f i).ts = lastT + ((i : ℚ) + 1)) :
    shapeOK ((List.range h).map f) lastT h := by
  refine Or.inr ⟨by simp, ?_, ?_⟩ <;>
    rw [List.map_map] <;>
    exact List.map_congr_left (fun a _ => by simp [Function.comp]; first | exact hd a | exact ht a)

/-- C1: for every strategy (linear, moving_average, arima, prophet),
every input series and every horizon `h ≥ 1`, the forecast is either
empty or has exactly `h` points whose `forecast_day` values are `1..h`
in order and whose timestamps are the last known timestamp plus
`1..h` whole days. -/
theorem C1_forecast_shape (df : List PriceBar) (symbol : String) (h : ℕ)
    (aAvail pAvail : Bool)
    (aOracle pOracle : List ℚ → ℕ → Option (List (ℚ × ℚ × ℚ)))
    (_hh : 1 ≤ h) :
    shapeOK (forecast_linear_regression df symbol h) (lastTs df) h ∧
    shapeOK (forecast_moving_average df symbol h) (lastTs df) h ∧
    shapeOK (forecast_arima aAvail aOracle df symbol h) (lastTs df) h ∧
    shapeOK (forecast_prophet pAvail pOracle df symbol h) (lastTs df) h := by
  refine ⟨?_, ?_, ?_, ?_⟩
  · unfold forecast_linear_regression
    split
    · exact Or.inl rfl
    · exact shapeOK_of_builder _ _ _ (fun i => rfl) (fun i => rfl)
  · unfold forecast_moving_average
    split
    · exact Or.inl rfl
    · exact shapeOK_of_builder _ _ _ (fun i => rfl) (fun i => rfl)
  · unfold forecast_arima
    split
    · exact Or.inl rfl
    · split
      · exact Or.inl rfl
      · dsimp only
        split
        · exact Or.inl rfl
        · split
          · exact shapeOK_of_builder _ _ _ (fun i => rfl) (fun i => rfl)
          · exact Or.inl rfl
  · unfold forecast_prophet
    split
    · exact Or.inl rfl
    · split
      · exact Or.inl rfl
      · dsimp only
        split
        · exact Or.inl rfl
        · split
          · exact shapeOK_of_builder _ _ _ (fun i => rfl) (fun i => rfl)
          · exact Or.inl rfl

/-- A bar of a concrete test series: timestamp `t`, all prices `c`. -/
def mkBar (t c : ℚ) : PriceBar :=
  { ts := t, symbol := "T", «open» := c, high := c, low := c, close := c, volume := 0 }

/-- A concrete 5-bar series: closes 1..5 on days 0..4. -/
def dfW : List PriceBar := [mkBar 0 1, mkBar 1 2, mkBar 2 3, mkBar 3 4, mkBar 4 5]

/-- Witness for C1 at the concrete series `dfW` and horizon 2. -/
theorem C1_forecast_shape_witness :
    shapeOK (forecast_linear_regression dfW "T" 2) (lastTs dfW) 2 ∧
    shapeOK (forecast_moving_average dfW "T" 2) (lastTs dfW) 2 ∧
    shapeOK (forecast_arima true (fun _ _ => none) dfW "T" 2) (lastTs dfW) 2 ∧
    shapeOK (forecast_prophet true (fun _ _ => none) dfW "T" 2) (lastTs dfW) 2 :=
  C1_forecast_shape dfW "T" 2 true true (fun _ _ => none) (fun _ _ => none) (by decide)

/-- C2: for every strategy and every point of a (non-empty) result,
`price_change = predicted_close - last_close` and
`price_change_pct = price_change / last_close * 100`, with `last_close`
the close of the final (latest-timestamp) bar of the input series. -/
theorem C2_derived_fields (df : List PriceBar) (symbol : String) (h : ℕ)
    (aAvail pAvail : Bool)
    (aOracle pOracle : List ℚ → ℕ → Option (List (ℚ × ℚ × ℚ)))
    (hz : lastClose df ≠ 0) :
    ∀ res ∈ [forecast_linear_regression df symbol h,
             forecast_moving_average df symbol h,
             forecast_arima aAvail aOracle df symbol h,
             forecast_prophet pAvail pOracle df symbol h],
      ∀ p ∈ res,
        p.price_change = p.predicted_close - lastClose df ∧
        p.price_change_pct = FVal.fin (p.price_change / lastClose df * 100) := by
  unfold lastClose at hz ⊢
  intro res hres
  simp only [List.mem_cons, List.not_mem_nil, or_false] at hres
  rcases hres with rfl | rfl | rfl | rfl
  · unfold forecast_linear_regression
    split
    · intro p hp; simp at hp
    · intro p hp
      rw [List.mem_map] at hp
      obtain ⟨i, -, rfl⟩ := hp
      exact ⟨rfl, pctChange_ne _ _ hz⟩
  · unfold forecast_moving_average
    split
    · intro p hp; simp at hp
    · intro p hp
      rw [List.mem_map] at hp
      obtain ⟨i, -, rfl⟩ := hp
      exact ⟨rfl, pctChange_ne _ _ hz⟩
  · unfold forecast_arima
    split
    · intro p hp; simp at hp
    · split
      · intro p hp; simp at hp
      · dsimp only
        split
        · intro p hp; simp at hp
        · split
          · intro p hp
            rw [List.mem_map] at hp
            obtain ⟨i, -, rfl⟩ := hp
            exact ⟨rfl, pctChange_ne _ _ hz⟩
          · intro p hp; simp at hp
  · unfold forecast_prophet
    split
    · intro p hp; simp at hp
    · split
      · intro p hp; simp at hp
      · dsimp only
        split
        · intro p hp; simp at hp
        · split
          · intro p hp
            rw [List.mem_map] at hp
            obtain ⟨i, -, rfl⟩ := hp
            exact ⟨rfl, pctChange_ne _ _ hz⟩
          · intro p hp; simp at hp

/-- Witness for C2 at the concrete series `dfW` and horizon 2. -/
theorem C2_derived_fields_witness :
    lastClose dfW ≠ 0 ∧
    (∀ res ∈ [forecast_linear_regression dfW "T" 2,
              forecast_moving_average dfW "T" 2,
              forecast_arima true (fun _ _ => none) dfW "T" 2,
              forecast_prophet true (fun _ _ => none) dfW "T" 2],
      ∀ p ∈ res,
        p.price_change = p.predicted_close - lastClose dfW ∧
        p.price_change_pct = FVal.fin (p.price_change / lastClose dfW * 100)) :=
  ⟨by decide,
   C2_derived_fields dfW "T" 2 true true (fun _ _ => none) (fun _ _ => none) (by decide)⟩

/-- The 20-bar series of the end-to-end scenario: consecutive days with
closes 100, 101, …, 119. -/
def df20 : List PriceBar :=
  [mkBar 0 100, mkBar 1 101, mkBar 2 102, mkBar 3 103, mkBar 4 104,
   mkBar 5 105, mkBar 6 106, mkBar 7 107, mkBar 8 108, mkBar 9 109,
   mkBar 10 110, mkBar 11 111, mkBar 12 112, mkBar 13 113, mkBar 14 114,
   mkBar 15 115, mkBar 16 116, mkBar 17 117, mkBar 18 118, mkBar 19 119]

theorem sum_map_affine (a b : ℚ) (l : List ℚ) :
    (l.map (fun x => a * x + b)).sum = a * l.sum + b * l.length := by
  induction l with
  | nil => simp
  | cons x t ih => simp [ih]; ring

theorem sum_map_mul_left' (a : ℚ) (g : ℚ → ℚ) (l : List ℚ) :
    (l.map (fun x => a * g x)).sum = a * (l.map g).sum := by
  induction l with
  | nil => simp
  | cons x t ih => simp [ih]; ring

theorem zip_map_self (f : ℚ → ℚ) (l : List ℚ) :
    l.zip (l.map f) = l.map (fun x => (x, f x)) := by
  induction l with
  | nil => rfl
  | cons x t ih => simp [ih]

theorem listMean_map_affine (a b : ℚ) (l : List ℚ) (hl : l ≠ []) :
    listMean (l.map (fun x => a * x + b)) = a * listMean l + b := by
  have h0 : (l.length : ℚ) ≠ 0 := by
    simpa using fun hc => hl (List.length_eq_zero.mp hc)
  unfold listMean
  rw [List.length_map, sum_map_affine]
  field_simp

/-- The centered sum of squares of the index list `0, …, n-1` is nonzero
as soon as `n ≥ 2` (the design matrix of the regression has full rank). -/
theorem sxx_ne_zero (n : ℕ) (hn : 2 ≤ n) :
    ((((List.range n).map (fun (t : ℕ) => (t : ℚ))).map
        (fun x => (x - listMean ((List.range n).map (fun (t : ℕ) => (t : ℚ)))) ^ 2)).sum) ≠ 0 := by
  set xbar := listMean ((List.range n).map (fun (t : ℕ) => (t : ℚ))) with hxbar
  intro hzero
  have hnonneg : ∀ y ∈ ((List.range n).map (fun (t : ℕ) => (t : ℚ))).map
      (fun x => (x - xbar) ^ 2), 0 ≤ y := by
    intro y hy
    rw [List.mem_map] at hy
    obtain ⟨x, -, rfl⟩ := hy
    positivity
  have hmem : ∀ (t : ℕ), t < n → ((t : ℚ) - xbar) ^ 2 ∈
      ((List.range n).map (fun (t : ℕ) => (t : ℚ))).map (fun x => (x - xbar) ^ 2) := by
    intro t ht
    exact List.mem_map.mpr ⟨(t : ℚ), List.mem_map.mpr ⟨t, List.mem_range.mpr ht, rfl⟩, rfl⟩
  have hzero_of_mem : ∀ (t : ℕ), t < n → ((t : ℚ) - xbar) ^ 2 = 0 := by
    intro t ht
    have hle := List.single_le_sum hnonneg _ (hmem t ht)
    have hge := hnonneg _ (hmem t ht)
    rw [hzero] at hle
    linarith
  have e0 : xbar = 0 := by simpa using hzero_of_mem 0 (by omega)
  have e1 : (1 : ℚ) - xbar = 0 := by simpa using hzero_of_mem 1 (by omega)
  rw [e0] at e1
  norm_num at e1

/-- Ordinary least squares reproduces affine data exactly: on the series
`yₜ = a·t + b`, `t = 0, …, n-1`, the fitted line evaluated anywhere is
`a·x + b`. -/
theorem olsPredict_affine (a b : ℚ) (n : ℕ) (hn : 2 ≤ n) (x : ℚ) :
    olsPredict ((List.range n).map (fun (t : ℕ) => a * (t : ℚ) + b)) x = a * x + b := by
  have hlen : ((List.range n).map (fun (t : ℕ) => a * (t : ℚ) + b)).length = n := by simp
  have hys : (List.range n).map (fun (t : ℕ) => a * (t : ℚ) + b) =
      ((List.range n).map (fun (t : ℕ) => (t : ℚ))).map (fun x => a * x + b) := by
    rw [List.map_map]; rfl
  set L := (List.range n).map (fun (t : ℕ) => (t : ℚ)) with hL
  have hLne : L ≠ [] := by
    rw [hL]
    simp only [ne_eq, List.map_eq_nil_iff, List.range_eq_nil]
    omega
  have hLlen : L.length = n := by rw [hL]; simp
  have hybar : listMean (L.map (fun x => a * x + b)) = a * listMean L + b :=
    listMean_map_affine a b L hLne
  have hslope : olsSlope ((List.range n).map (fun (t : ℕ) => a * (t : ℚ) + b)) = a := by
    unfold olsSlope
    rw [hys, List.length_map, hLlen, ← hL, hybar]
    dsimp only
    rw [zip_map_self (fun x => a * x + b) L, List.map_map]
    have hcongr : (L.map ((fun p : ℚ × ℚ => (p.1 - listMean L) * (p.2 - (a * listMean L + b))) ∘
        (fun x => (x, a * x + b)))) =
        L.map (fun x => a * ((x - listMean L) ^ 2)) := by
      refine List.map_congr_left (fun y _ => ?_)
      simp only [Function.comp]
      ring
    rw [hcongr, sum_map_mul_left' a (fun x => (x - listMean L) ^ 2) L]
    rw [mul_div_assoc, div_self (by rw [hL]; exact sxx_ne_zero n hn), mul_one]
  have hicept : olsIntercept ((List.range n).map (fun (t : ℕ) => a * (t : ℚ) + b)) = b := by
    unfold olsIntercept
    rw [hslope, hys, List.length_map, hLlen, ← hL, hybar]
    ring
  unfold olsPredict
  rw [hslope, hicept]
  ring

/-- C3: on the 20-day series with closes 100..119 and horizon 5, the
linear strategy predicts closes exactly 120..124, with price changes
1..5 and percentage changes 100/119, …, 500/119 (≈ 0.84 %, 1.68 %,
2.52 %, 3.36 %, 4.20 %) relative to last close 119. -/
theorem C3_linear_end_to_end :
    (forecast_linear_regression df20 "T" 5).map (·.predicted_close) =
      [120, 121, 122, 123, 124] ∧
    (forecast_linear_regression df20 "T" 5).map (·.price_change) = [1, 2, 3, 4, 5] ∧
    (forecast_linear_regression df20 "T" 5).map (·.price_change_pct) =
      [.fin (100 / 119), .fin (200 / 119), .fin (300 / 119),
       .fin (400 / 119), .fin (500 / 119)] ∧
    lastClose df20 = 119 := by
  have hsort : sortByTs df20 = df20 := by decide
  have hcl : df20.map (·.close) = (List.range 20).map (fun (t : ℕ) => 1 * (t : ℚ) + 100) := by
    rw [show List.range 20 = [0, 1, 2, 3, 4, 5, 6, 7, 8, 9, 10, 11, 12, 13,
      14, 15, 16, 17, 18, 19] from by decide]
    simp only [df20, mkBar, List.map_cons, List.map_nil]
    norm_num
  have hlast : (df20.map (·.close)).getLastD 0 = 119 := by decide
  have hlen : (df20.map (·.close)).length = 20 := by decide
  have hols : ∀ x, olsPredict ((List.range 20).map (fun (t : ℕ) => 1 * (t : ℚ) + 100)) x =
      1 * x + 100 := olsPredict_affine 1 100 20 (by norm_num)
  have hpct : ∀ c, pctChange c 119 = .fin (c / 119 * 100) :=
    fun c => pctChange_ne c 119 (by decide)
  refine ⟨?_, ?_, ?_, by decide⟩ <;>
  · unfold forecast_linear_regression
    rw [if_neg (by decide)]
    dsimp only
    rw [hsort, hlast, hlen, hcl, List.map_map]
    rw [show List.range 5 = [0, 1, 2, 3, 4] from by decide]
    simp only [List.map_cons, List.map_nil, Function.comp, hols, hpct]
    norm_num

theorem getLastD_all_eq (c : ℚ) :
    ∀ (l : List ℚ) (d : ℚ), l ≠ [] → (∀ x ∈ l, x = c) → l.getLastD d = c
  | [], _, hne, _ => absurd rfl hne
  | [a], _, _, hc => hc a (by simp)
  | a :: b :: t, _, _, hc => by
    have := getLastD_all_eq c (b :: t) a (by simp) (fun x hx => hc x (List.mem_cons_of_mem a hx))
    simpa [List.getLastD] using this

theorem headD_all_eq (c : ℚ) (l : List ℚ) (d : ℚ) (hne : l ≠ [])
    (hc : ∀ x ∈ l, x = c) : l.headD d = c := by
  cases l with
  | nil => exact absurd rfl hne
  | cons a t => simpa using hc a (by simp)

/-- The moving-average trend exactly as the spec words it: the average
daily delta `(most_recent - earliest_in_window) / window_size` over the
window of the last `min 10 n` closes of the sorted series. -/
def specTrend (df : List PriceBar) : ℚ :=
  let closes := (sortByTs df).map (·.close)
  let window := closes.drop (closes.length - min 10 closes.length)
  (window.getLastD 0 - window.headD 0) / ((min 10 closes.length : ℕ) : ℚ)

theorem ma_predicted_eq (df : List PriceBar) (symbol : String) (h : ℕ) :
    ∀ p ∈ forecast_moving_average df symbol h,
      p.predicted_close = lastClose df + specTrend df * p.forecast_day := by
  intro p hp
  unfold forecast_moving_average at hp
  split at hp
  · simp at hp
  · rw [List.mem_map] at hp
    obtain ⟨i, -, rfl⟩ := hp
    have hw : (((sortByTs df).map (·.close)).drop
        (((sortByTs df).map (·.close)).length -
          min 10 ((sortByTs df).map (·.close)).length)).length
        = min 10 ((sortByTs df).map (·.close)).length := by
      rw [List.length_drop]; omega
    simp only [specTrend, lastClose]
    rw [hw]
    push_cast
    ring

/-- C4: for a series of length ≥ 5, each moving-average point for day
`i` equals `last_close + trend * i`, with the trend the spec's formula
(`specTrend`: average daily delta over the window of the last
`min 10 n` closes); the EWMA baseline does not enter any predicted
value.  In particular a constant-price series forecasts the constant at
every horizon point. -/
theorem C4_moving_average_trend (df : List PriceBar) (symbol : String) (h : ℕ) (c : ℚ)
    (h5 : 5 ≤ df.length) :
    (∀ p ∈ forecast_moving_average df symbol h,
        p.predicted_close = lastClose df + specTrend df * p.forecast_day) ∧
    ((∀ b ∈ df, b.close = c) →
      ∀ p ∈ forecast_moving_average df symbol h, p.predicted_close = c) := by
  refine ⟨ma_predicted_eq df symbol h, fun hc p hp => ?_⟩
  have hclen : ((sortByTs df).map (·.close)).length = df.length := by simp [sortByTs]
  have hne : (sortByTs df).map (·.close) ≠ [] := by
    intro hnil
    rw [hnil] at hclen
    simp at hclen
    omega
  have hall : ∀ x ∈ (sortByTs df).map (·.close), x = c := by
    intro x hx
    rw [List.mem_map] at hx
    obtain ⟨b, hb, rfl⟩ := hx
    exact hc b (by simpa [sortByTs] using hb)
  have h0 : lastClose df = c := getLastD_all_eq c _ 0 hne hall
  have h1 : specTrend df = 0 := by
    unfold specTrend
    dsimp only
    set closes := (sortByTs df).map (·.close) with hcs
    set w := closes.drop (closes.length - min 10 closes.length) with hwdef
    have hmr : min 10 closes.length ≤ closes.length := Nat.min_le_right 10 closes.length
    have hwlen : w.length = min 10 closes.length := by
      rw [hwdef, List.length_drop]
      omega
    have h5w : 5 ≤ min 10 closes.length := le_min (by omega) (by omega)
    have hwne : w ≠ [] := by
      intro hnil
      rw [hnil] at hwlen
      simp at hwlen
      omega
    have hwall : ∀ x ∈ w, x = c := by
      intro x hx
      rw [hwdef] at hx
      exact hall x (List.mem_of_mem_drop hx)
    rw [getLastD_all_eq c w 0 hwne hwall, headD_all_eq c w 0 hwne hwall, sub_self, zero_div]
  rw [ma_predicted_eq df symbol h p hp, h0, h1, zero_mul, add_zero]

/-- A constant-price 5-bar series: close 7 on days 0..4. -/
def dfC : List PriceBar := [mkBar 0 7, mkBar 1 7, mkBar 2 7, mkBar 3 7, mkBar 4 7]

/-- Witness for C4 at the constant series `dfC` and horizon 3. -/
theorem C4_moving_average_trend_witness :
    5 ≤ dfC.length ∧
    ((∀ p ∈ forecast_moving_average dfC "T" 3,
        p.predicted_close = lastClose dfC + specTrend dfC * p.forecast_day) ∧
     ((∀ b ∈ dfC, b.close = 7) →
       ∀ p ∈ forecast_moving_average dfC "T" 3, p.predicted_close = 7)) :=
  ⟨by decide, C4_moving_average_trend dfC "T" 3 7 (by decide)⟩

/-- C5: a series shorter than the method's minimum length (5 for linear
and moving_average, 15 for arima, 10 for prophet) yields an empty result
for that method, with no exception raised (the embedded functions are
total). -/
theorem C5_short_series_empty (df : List PriceBar) (symbol : String) (h : ℕ)
    (aAvail pAvail : Bool)
    (aOracle pOracle : List ℚ → ℕ → Option (List (ℚ × ℚ × ℚ))) :
    (df.length < 5 → forecast_linear_regression df symbol h = []) ∧
    (df.length < 5 → forecast_moving_average df symbol h = []) ∧
    (df.length < 15 → forecast_arima aAvail aOracle df symbol h = []) ∧
    (df.length < 10 → forecast_prophet pAvail pOracle df symbol h = []) := by
  refine ⟨fun hl => ?_, fun hl => ?_, fun hl => ?_, fun hl => ?_⟩
  · simp [forecast_linear_regression, hl]
  · simp [forecast_moving_average, hl]
  · cases aAvail <;> simp [forecast_arima, hl]
  · cases pAvail <;> simp [forecast_prophet, hl]

/-- A 4-bar series, below every method's minimum length. -/
def df4 : List PriceBar := [mkBar 0 1, mkBar 1 2, mkBar 2 3, mkBar 3 4]

/-- Witness for C5 at the 4-bar series `df4`. -/
theorem C5_short_series_empty_witness :
    df4.length < 5 ∧ df4.length < 15 ∧ df4.length < 10 ∧
    forecast_linear_regression df4 "T" 7 = [] ∧
    forecast_moving_average df4 "T" 7 = [] ∧
    forecast_arima true (fun _ _ => some []) df4 "T" 7 = [] ∧
    forecast_prophet true (fun _ _ => some []) df4 "T" 7 = [] := by
  refine ⟨by decide, by decide, by decide, ?_, ?_, ?_, ?_⟩
  · exact (C5_short_series_empty df4 "T" 7 true true (fun _ _ => some [])
      (fun _ _ => some [])).1 (by decide)
  · exact (C5_short_series_empty df4 "T" 7 true true (fun _ _ => some [])
      (fun _ _ => some [])).2.1 (by decide)
  · exact (C5_short_series_empty df4 "T" 7 true true (fun _ _ => some [])
      (fun _ _ => some [])).2.2.1 (by decide)
  · exact (C5_short_series_empty df4 "T" 7 true true (fun _ _ => some [])
      (fun _ _ => some [])).2.2.2 (by decide)

theorem pctChange_zero_cases (c x : ℚ) (hx : x = 0) :
    (pctChange c x).isFinite = false ∧
    pctChange c x =
      (if 0 < c then FVal.inf else if c < 0 then FVal.neginf else FVal.nan) := by
  subst hx
  unfold pctChange
  simp only [ne_eq, not_true_eq_false, if_false, not_false_eq_true]
  constructor
  · split
    · rfl
    · split <;> rfl
  · trivial

/-- A 5-bar series that declines to a final close of exactly zero. -/
def df0 : List PriceBar := [mkBar 0 4, mkBar 1 3, mkBar 2 2, mkBar 3 1, mkBar 4 0]

/-- Counterexample to C6: on the series `df0` whose final close is 0,
the moving-average forecast is non-empty and its points carry
`price_change_pct = -∞` (numpy divides by zero), not null/NaN. -/
theorem C6_counterexample :
    lastClose df0 = 0 ∧
    ¬ (∀ p ∈ forecast_moving_average df0 "T" 3, p.price_change_pct = FVal.nan) := by
  have hmap : (forecast_moving_average df0 "T" 3).map (·.price_change_pct) =
      [.neginf, .neginf, .neginf] := by
    unfold forecast_moving_average
    rw [if_neg (by decide)]
    dsimp only
    rw [show sortByTs df0 = df0 from by decide]
    rw [show List.range 3 = [0, 1, 2] from by decide]
    norm_num [df0, mkBar, pctChange, List.getLastD, List.headD]
  refine ⟨by decide, fun hall => ?_⟩
  have hmem : FVal.neginf ∈ (forecast_moving_average df0 "T" 3).map (·.price_change_pct) := by
    rw [hmap]; simp
  rw [List.mem_map] at hmem
  obtain ⟨p, hp, hpct⟩ := hmem
  rw [hall p hp] at hpct
  exact FVal.noConfusion hpct

/-- C6 amended: when the final close is exactly zero, the code still
performs the division; for every strategy and every point of a
non-empty result, `price_change_pct` is a non-finite IEEE value — `+∞`
for a positive change, `-∞` for a negative one, `NaN` for a zero
change — rather than null. -/
theorem C6_zero_last_close (df : List PriceBar) (symbol : String) (h : ℕ)
    (aAvail pAvail : Bool)
    (aOracle pOracle : List ℚ → ℕ → Option (List (ℚ × ℚ × ℚ)))
    (hz : lastClose df = 0) :
    ∀ res ∈ [forecast_linear_regression df symbol h,
             forecast_moving_average df symbol h,
             forecast_arima aAvail aOracle df symbol h,
             forecast_prophet pAvail pOracle df symbol h],
      ∀ p ∈ res,
        p.price_change_pct.isFinite = false ∧
        p.price_change_pct =
          (if 0 < p.price_change then FVal.inf
           else if p.price_change < 0 then FVal.neginf else FVal.nan) := by
  unfold lastClose at hz
  intro res hres
  simp only [List.mem_cons, List.not_mem_nil, or_false] at hres
  rcases hres with rfl | rfl | rfl | rfl
  · unfold forecast_linear_regression
    split
    · intro p hp; simp at hp
    · intro p hp
      rw [List.mem_map] at hp
      obtain ⟨i, -, rfl⟩ := hp
      exact pctChange_zero_cases _ _ hz
  · unfold forecast_moving_average
    split
    · intro p hp; simp at hp
    · intro p hp
      rw [List.mem_map] at hp
      obtain ⟨i, -, rfl⟩ := hp
      exact pctChange_zero_cases _ _ hz
  · unfold forecast_arima
    split
    · intro p hp; simp at hp
    · split
      · intro p hp; simp at hp
      · dsimp only
        split
        · intro p hp; simp at hp
        · split
          · intro p hp
            rw [List.mem_map] at hp
            obtain ⟨i, -, rfl⟩ := hp
            exact pctChange_zero_cases _ _ hz
          · intro p hp; simp at hp
  · unfold forecast_prophet
    split
    · intro p hp; simp at hp
    · split
      · intro p hp; simp at hp
      · dsimp only
        split
        · intro p hp; simp at hp
        · split
          · intro p hp
            rw [List.mem_map] at hp
            obtain ⟨i, -, rfl⟩ := hp
            exact pctChange_zero_cases _ _ hz
          · intro p hp; simp at hp

/-- Witness for the amended C6 at the concrete series `df0`. -/
theorem C6_zero_last_close_witness :
    lastClose df0 = 0 ∧
    (∀ res ∈ [forecast_linear_regression df0 "T" 3,
              forecast_moving_average df0 "T" 3,
              forecast_arima true (fun _ _ => none) df0 "T" 3,
              forecast_prophet true (fun _ _ => none) df0 "T" 3],
      ∀ p ∈ res,
        p.price_change_pct.isFinite = false ∧
        p.price_change_pct =
          (if 0 < p.price_change then FVal.inf
           else if p.price_change < 0 then FVal.neginf else FVal.nan)) :=
  ⟨by decide,
   C6_zero_last_close df0 "T" 3 true true (fun _ _ => none) (fun _ _ => none) (by decide)⟩

theorem tableInsert_some_eq {s b r : List ForecastRow} (h : tableInsert s b = some r) :
    r = s ++ b := by
  unfold tableInsert at h
  split at h
  · exact (Option.some.inj h).symm
  · cases h

theorem tableInsert_none_of_overlap {s b : List ForecastRow}
    (h : ∃ r ∈ b, rowKey r ∈ s.map rowKey) : tableInsert s b = none := by
  unfold tableInsert
  split
  · next hcond =>
    obtain ⟨r, hr, hk⟩ := h
    exact absurd hk (hcond.2 r hr)
  · rfl

theorem tableInsert_none_cases {s b : List ForecastRow} (h : tableInsert s b = none) :
    ¬ (b.map rowKey).Nodup ∨ ∃ r ∈ b, rowKey r ∈ s.map rowKey := by
  unfold tableInsert at h
  split at h
  · cases h
  · next hcond =>
    rw [not_and_or] at hcond
    rcases hcond with hnd | hover
    · exact Or.inl hnd
    · push_neg at hover
      exact Or.inr hover

theorem listChunks_sum_length (bs : ℕ) :
    ∀ (l : List ForecastRow), ((listChunks bs l).map List.length).sum = l.length
  | [] => by simp [listChunks]
  | a :: rest => by
    have ih := listChunks_sum_length bs (rest.drop (bs - 1))
    simp only [listChunks, List.map_cons, List.sum_cons, ih,
      List.length_cons, List.length_take, List.length_drop]
    omega
termination_by l => l.length
decreasing_by simp [List.length_drop]; omega

theorem listChunks_ne_nil (bs : ℕ) :
    ∀ (l : List ForecastRow), ∀ c ∈ listChunks bs l, c ≠ []
  | [], c, hc => by simp [listChunks] at hc
  | a :: rest, c, hc => by
    simp only [listChunks, List.mem_cons] at hc
    rcases hc with rfl | hc
    · simp
    · exact listChunks_ne_nil bs (rest.drop (bs - 1)) c hc
termination_by l => l.length
decreasing_by simp [List.length_drop]; omega

theorem foldl_insertStep_state_extends (cs : List (List ForecastRow)) :
    ∀ (s : List ForecastRow) (n : ℕ), ∃ ext, (cs.foldl insertStep (s, n)).1 = s ++ ext := by
  induction cs with
  | nil => exact fun s n => ⟨[], by simp⟩
  | cons c rest ih =>
    intro s n
    rw [List.foldl_cons]
    unfold insertStep
    rcases hti : tableInsert s c with _ | r
    · simpa using ih s (n + c.length)
    · rw [tableInsert_some_eq hti]
      obtain ⟨ext, hext⟩ := ih (s ++ c) (n + c.length)
      exact ⟨c ++ ext, by simpa [List.append_assoc] using hext⟩

theorem foldl_insertStep_conflicts (cs : List (List ForecastRow)) :
    ∀ (s : List ForecastRow) (n : ℕ) (c : List ForecastRow), c ∈ cs → c ≠ [] →
      tableInsert ((cs.foldl insertStep (s, n)).1) c = none := by
  induction cs with
  | nil => intro s n c hc; simp at hc
  | cons c0 rest ih =>
    intro s n c hc hne
    rw [List.foldl_cons]
    rcases List.mem_cons.mp hc with rfl | hc
    · -- the chunk is the first one: it either just got inserted, or
      -- already conflicted; either way it conflicts with the final state
      rcases hti : tableInsert s c with _ | r
      · -- it conflicted with s, and s is a prefix of the final state
        have hstep : insertStep (s, n) c = (s, n + c.length) := by
          unfold insertStep
          rw [hti]
        rw [hstep]
        obtain ⟨ext, hext⟩ := foldl_insertStep_state_extends rest s (n + c.length)
        rcases tableInsert_none_cases hti with hnd | ⟨x, hx, hk⟩
        · unfold tableInsert
          rw [if_neg (fun hcond => hnd hcond.1)]
        · refine tableInsert_none_of_overlap ⟨x, hx, ?_⟩
          rw [hext, List.map_append, List.mem_append]
          exact Or.inl hk
      · -- it was inserted: its rows are now part of the state
        have hr := tableInsert_some_eq hti
        subst hr
        have hstep : insertStep (s, n) c = (s ++ c, n + c.length) := by
          unfold insertStep
          rw [hti]
        rw [hstep]
        obtain ⟨ext, hext⟩ := foldl_insertStep_state_extends rest (s ++ c) (n + c.length)
        obtain ⟨x, hx⟩ := List.exists_mem_of_ne_nil c hne
        refine tableInsert_none_of_overlap ⟨x, hx, ?_⟩
        rw [hext, List.map_append, List.mem_append, List.map_append, List.mem_append]
        exact Or.inl (Or.inr (List.mem_map_of_mem rowKey hx))
    · -- the chunk comes later: induction at the updated accumulator
      rcases hstep : insertStep (s, n) c0 with ⟨s2, n2⟩
      exact ih s2 n2 c hc hne

theorem foldl_insertStep_of_all_conflict (cs : List (List ForecastRow)) :
    ∀ (s : List ForecastRow) (n : ℕ), (∀ c ∈ cs, tableInsert s c = none) →
      cs.foldl insertStep (s, n) = (s, n + ((cs.map List.length).sum)) := by
  induction cs with
  | nil => intro s n _; simp
  | cons c rest ih =>
    intro s n hall
    have hstep : insertStep (s, n) c = (s, n + c.length) := by
      unfold insertStep
      rw [hall c (by simp)]
    rw [List.foldl_cons, hstep,
      ih s (n + c.length) (fun c2 hc2 => hall c2 (by simp [hc2]))]
    simp only [List.map_cons, List.sum_cons]
    congr 1
    omega

/-- C7: storing the same forecast rows twice is idempotent — the second
store leaves the modelled table unchanged (every batch hits the
`UNIQUE(forecast_date, symbol, method)` constraint and is skipped), the
duplicate-key conflict is swallowed rather than raised (the function
returns normally), and the conflicting rows are still counted in the
returned number of rows accepted. -/
theorem C7_store_idempotent (state : List ForecastRow) (points : List ForecastPoint)
    (method : String) (bs : ℕ) :
    (insert_forecast_data (insert_forecast_data state points method bs).1
        points method bs).1 =
      (insert_forecast_data state points method bs).1 ∧
    (insert_forecast_data (insert_forecast_data state points method bs).1
        points method bs).2 = points.length := by
  cases points with
  | nil => simp [insert_forecast_data]
  | cons p ps =>
    have hne : ((p :: ps).isEmpty) = false := by simp
    unfold insert_forecast_data
    rw [hne]
    simp only [Bool.false_eq_true, if_false]
    unfold insertBatches
    set records := (p :: ps).map (rowOfPointV2 method) with hrec
    set cs := listChunks bs records with hcs
    set s1 := ((cs.foldl insertStep (state, 0)).1) with hs1
    have hconf : ∀ c ∈ cs, tableInsert s1 c = none := by
      intro c hc
      exact foldl_insertStep_conflicts cs state 0 c hc
        (listChunks_ne_nil bs records c (hcs ▸ hc))
    rw [foldl_insertStep_of_all_conflict cs s1 0 hconf]
    refine ⟨rfl, ?_⟩
    rw [hcs, listChunks_sum_length bs records, hrec]
    simp

/-- A 15-bar series, long enough for the arima strategy. -/
def dfA : List PriceBar :=
  [mkBar 0 1, mkBar 1 2, mkBar 2 3, mkBar 3 4, mkBar 4 5,
   mkBar 5 6, mkBar 6 7, mkBar 7 8, mkBar 8 9, mkBar 9 10,
   mkBar 10 11, mkBar 11 12, mkBar 12 13, mkBar 13 14, mkBar 14 15]

/-- A concrete stand-in for the ARIMA fit: every step predicts 100 with
confidence bounds [90, 110]. -/
def oracleA : List ℚ → ℕ → Option (List (ℚ × ℚ × ℚ)) :=
  fun _ steps => some ((List.range steps).map (fun _ => (100, 90, 110)))

/-- A default `ForecastPoint` (only used as a `headD` fallback). -/
def pDefault : ForecastPoint :=
  { ts := 0, symbol := "", predicted_close := 0, forecast_day := 0,
    price_change := 0, price_change_pct := .nan }

/-- Counterexample to C8: an arima forecast point carries populated
bounds, yet the row the v2 sink builds from it has NULL `lower_bound`
and `upper_bound` — the v2 insert payload carries no bound keys at
all. -/
theorem C8_counterexample :
    ((forecast_arima true oracleA dfA "A" 3).headD pDefault).lower_bound = some 90 ∧
    ((forecast_arima true oracleA dfA "A" 3).headD pDefault).upper_bound = some 110 ∧
    (rowOfPointV2 "arima" ((forecast_arima true oracleA dfA "A" 3).headD pDefault)).lower_bound
      = none ∧
    (rowOfPointV2 "arima" ((forecast_arima true oracleA dfA "A" 3).headD pDefault)).upper_bound
      = none := by
  refine ⟨?_, ?_, rfl, rfl⟩ <;> rfl

theorem keys_nodup_of_builder (lastT : ℚ) (h : ℕ) (method : String)
    (f : ℕ → ForecastPoint) (ht : ∀ i, (f i).ts = lastT + ((i : ℚ) + 1)) :
    (((List.range h).map f).map (fun p => rowKey (rowOfPointV2 method p))).Nodup := by
  have hkey : ∀ i : ℕ, ⌊(f i).ts⌋ = ⌊lastT⌋ + (i + 1 : ℕ) := by
    intro i
    rw [ht i, show lastT + ((i : ℚ) + 1) = lastT + ((i + 1 : ℕ) : ℚ) by push_cast; ring]
    exact_mod_cast Int.floor_add_nat lastT (i + 1)
  rw [List.map_map]
  refine List.Nodup.map_on ?_ (List.nodup_range h)
  intro i _ j _ hij
  simp only [Function.comp, rowKey, rowOfPointV2, Prod.mk.injEq] at hij
  obtain ⟨h1, -⟩ := hij
  rw [hkey i, hkey j] at h1
  omega

/-- C8 amended: for the v2 sink the normalized row's `forecast_date` is
the calendar date of the point's forecast timestamp, so the horizon
points of one strategy result map to pairwise-distinct
`(forecast_date, symbol, method)` keys; but the v2 rows carry no
`lower_bound`/`upper_bound` values — they are NULL for every method,
arima and prophet included.  Only the legacy v1 sink copies the bounds
into the row, and it stamps every row with the run date `today` instead
of the point's own date. -/
theorem C8_row_normalization (df : List PriceBar) (symbol : String) (h : ℕ)
    (aAvail pAvail : Bool)
    (aOracle pOracle : List ℚ → ℕ → Option (List (ℚ × ℚ × ℚ)))
    (method : String) :
    (∀ p : ForecastPoint,
        (rowOfPointV2 method p).forecast_date = ⌊p.ts⌋ ∧
        (rowOfPointV2 method p).lower_bound = none ∧
        (rowOfPointV2 method p).upper_bound = none) ∧
    (∀ res ∈ [forecast_linear_regression df symbol h,
              forecast_moving_average df symbol h,
              forecast_arima aAvail aOracle df symbol h,
              forecast_prophet pAvail pOracle df symbol h],
       (res.map (fun p => rowKey (rowOfPointV2 method p))).Nodup) ∧
    (∀ (today : ℤ) (p : ForecastPoint),
        (rowOfPointV1 today method p).forecast_date = today ∧
        (rowOfPointV1 today method p).lower_bound = p.lower_bound ∧
        (rowOfPointV1 today method p).upper_bound = p.upper_bound) := by
  refine ⟨fun p => ⟨rfl, rfl, rfl⟩, ?_, fun today p => ⟨rfl, rfl, rfl⟩⟩
  intro res hres
  simp only [List.mem_cons, List.not_mem_nil, or_false] at hres
  rcases hres with rfl | rfl | rfl | rfl
  · unfold forecast_linear_regression
    split
    · simp
    · exact keys_nodup_of_builder (lastTs df) h method _ (fun i => rfl)
  · unfold forecast_moving_average
    split
    · simp
    · exact keys_nodup_of_builder (lastTs df) h method _ (fun i => rfl)
  · unfold forecast_arima
    split
    · simp
    · split
      · simp
      · dsimp only
        split
        · simp
        · split
          · exact keys_nodup_of_builder (lastTs df) h method _ (fun i => rfl)
          · simp
  · unfold forecast_prophet
    split
    · simp
    · split
      · simp
      · dsimp only
        split
        · simp
        · split
          · exact keys_nodup_of_builder (lastTs df) h method _ (fun i => rfl)
          · simp

/-- C9: the loader returns the last `lookback_days` bars of the
symbol's history sorted ascending by timestamp (fewer if less history
exists — the length is `min lookback_days (history length)`, and the
result is a suffix of the ascending-sorted history); when the symbol
has no data (`some []`) or the fetch fails (`none`, the caught
exception) it returns an empty series instead of raising. -/
theorem C9_loader (bars : List PriceBar) (d : ℕ) :
    fetch_historical_data none d = [] ∧
    fetch_historical_data (some []) d = [] ∧
    List.Sorted tsLE (fetch_historical_data (some bars) d) ∧
    (fetch_historical_data (some bars) d).length = min d bars.length ∧
    fetch_historical_data (some bars) d <:+ sortByTs bars := by
  refine ⟨rfl, rfl, ?_, ?_, ?_⟩
  · cases bars with
    | nil => simp [fetch_historical_data]
    | cons b bs =>
      simp only [fetch_historical_data]
      exact List.Pairwise.sublist (List.drop_sublist _ _)
        (List.sorted_insertionSort tsLE (b :: bs))
  · cases bars with
    | nil => simp [fetch_historical_data]
    | cons b bs =>
      simp only [fetch_historical_data, List.length_drop, sortByTs,
        List.length_insertionSort]
      omega
  · cases bars with
    | nil => simp [fetch_historical_data, sortByTs, List.insertionSort]
    | cons b bs =>
      simp only [fetch_historical_data]
      exact List.drop_suffix _ _

/-- C10: an unrecognized method string makes `generate_forecast` return
an empty result without raising, exactly like the no-data outcome. -/
theorem C10_unknown_method (response : Option (List PriceBar)) (symbol : String)
    (days : ℕ) (method : String) (aAvail pAvail : Bool)
    (aOracle pOracle : List ℚ → ℕ → Option (List (ℚ × ℚ × ℚ)))
    (hm : method ∉ ["linear", "moving_average", "arima", "prophet"]) :
    generate_forecast response symbol days method aAvail pAvail aOracle pOracle = [] := by
  simp only [List.mem_cons, List.not_mem_nil, or_false, not_or] at hm
  obtain ⟨h1, h2, h3, h4⟩ := hm
  unfold generate_forecast
  simp only [h1, h2, h3, h4, if_false, ite_self]

/-- Witness for C10 with the unknown method string "foo". -/
theorem C10_unknown_method_witness :
    "foo" ∉ ["linear", "moving_average", "arima", "prophet"] ∧
    generate_forecast (some dfW) "T" 7 "foo" true true
      (fun _ _ => none) (fun _ _ => none) = [] :=
  ⟨by decide,
   C10_unknown_method (some dfW) "T" 7 "foo" true true
     (fun _ _ => none) (fun _ _ => none) (by decide)⟩
